import Mathlib

/-!
Verification of the DNR cross-section tools (`CreateLixpys_unloc.py`,
`RasterProfiles.py`) against their natural-language specification.

The scripts are embedded shallowly over exact rational arithmetic:

* planar points are pairs of rationals;
* the square root used by the platform's planar distance primitives
  (`angleAndDistanceTo`, `pointFromAngleAndDistance`, segment lengths in
  `measureOnLine`) is passed in explicitly as a function `sq : ℚ → ℚ`;
  theorems that depend on it assume, pointwise at the inputs actually used,
  that it returns the nonnegative square root (`IsSqrtAt`);
* the nearest-point search of the Near analysis / `measureOnLine` is the
  standard clamped point-to-segment projection, minimised over segments with
  ties resolved to the first segment in line order;
* the surrounding GIS platform's table plumbing is reduced to lists of
  records, and its buffer primitive to a constructor that records the
  buffering parameters (the spec treats it as a black-box operator).
-/

namespace DNRXS

/-- A planar point `(x, y)` with exact rational coordinates. -/
abbrev Pt := ℚ × ℚ

/-- Squared planar Euclidean distance between two points. -/
def pdistSq (p q : Pt) : ℚ := (p.1 - q.1) ^ 2 + (p.2 - q.2) ^ 2

/-- `sq` returns the true (nonnegative) square root at input `x`. -/
def IsSqrtAt (sq : ℚ → ℚ) (x : ℚ) : Prop := 0 ≤ sq x ∧ (sq x) ^ 2 = x

/-- Vector difference of two points. -/
def sub2 (u v : Pt) : Pt := (u.1 - v.1, u.2 - v.2)

/-- Planar dot product. -/
def dot2 (u v : Pt) : ℚ := u.1 * v.1 + u.2 * v.2

/-- `beg_pt.pointFromAngleAndDistance(angle, d)` where `angle` is
`a.angleAndDistanceTo(b)`: move distance `d` from `b` along the bearing that
points from `a` towards `b`.  The platform's trigonometry collapses to
`b + (d / |b - a|) • (b - a)`; the segment length `|b - a|` is obtained from
the square-root oracle. -/
def extendPoint (sq : ℚ → ℚ) (a b : Pt) (d : ℚ) : Pt :=
  (b.1 + d * (b.1 - a.1) / sq (pdistSq a b),
   b.2 + d * (b.2 - a.2) / sq (pdistSq a b))

/-- The `xsln_temp` extension loop of `CreateLixpys_unloc.py` (section 13):
read the vertex list, compute the begin bearing from `vertex[1]` to
`vertex[0]` and the end bearing from `vertex[n-2]` to `vertex[n-1]`, project
the two new endpoints by `d`, and replace the first and last vertices.
A list with fewer than two vertices is returned unchanged (the script would
fail on such input before reaching this point). -/
def extendLine (sq : ℚ → ℚ) (verts : List Pt) (d : ℚ) : List Pt :=
  match verts with
  | v0 :: v1 :: rest =>
    let nb := extendPoint sq v1 v0 d
    let ne := extendPoint sq ((v0 :: v1 :: rest).dropLast.getLastD v0)
                             ((v1 :: rest).getLastD v1) d
    (((v0 :: v1 :: rest).set 0 nb).set ((v0 :: v1 :: rest).length - 1) ne)
  | l => l

/-- The segments of a polyline given by its vertex list, in line order. -/
def segsOf (verts : List Pt) : List (Pt × Pt) := verts.zip verts.tail

/-- Dummy segment used for out-of-range list access. -/
def dummySeg : Pt × Pt := ((0, 0), (0, 0))

/-- Clamped projection parameter of point `p` onto segment `s`
(`0` at `s.1`, `1` at `s.2`).  A degenerate segment yields parameter `0`
(rational division by zero is zero). -/
def segParam (p : Pt) (s : Pt × Pt) : ℚ :=
  max 0 (min 1 (dot2 (sub2 p s.1) (sub2 s.2 s.1) / pdistSq s.1 s.2))

/-- The point of segment `s` at parameter `t`. -/
def segPointAt (s : Pt × Pt) (t : ℚ) : Pt :=
  (s.1.1 + t * (s.2.1 - s.1.1), s.1.2 + t * (s.2.2 - s.1.2))

/-- Squared distance from `p` to the closest point of segment `s`. -/
def segSqDist (p : Pt) (s : Pt × Pt) : ℚ :=
  pdistSq p (segPointAt s (segParam p s))

/-- First-minimum scan over the segment list: returns the index of the
closest segment together with its squared distance, ties resolved to the
earliest segment in line order. -/
def bestSeg (p : Pt) : List (Pt × Pt) → Option (ℕ × ℚ)
  | [] => none
  | s :: rest =>
    match bestSeg p rest with
    | none => some (0, segSqDist p s)
    | some (j, dj) =>
      if segSqDist p s ≤ dj then some (0, segSqDist p s) else some (j + 1, dj)

/-- The Near analysis (`arcpy.analysis.Near` with `LOCATION`): the nearest
point (`NEAR_X`, `NEAR_Y`) on the polyline to `p`. -/
def nearPoint (verts : List Pt) (p : Pt) : Pt :=
  match bestSeg p (segsOf verts) with
  | none => p
  | some (j, _) =>
    let s := (segsOf verts).getD j dummySeg
    segPointAt s (segParam p s)

/-- Length of a segment, via the square-root oracle. -/
def segLen (sq : ℚ → ℚ) (s : Pt × Pt) : ℚ := sq (pdistSq s.1 s.2)

/-- Cumulative length of the first `i` segments. -/
def cumLen (sq : ℚ → ℚ) (l : List (Pt × Pt)) (i : ℕ) : ℚ :=
  ((l.take i).map (segLen sq)).sum

/-- `arcpy.Polyline.measureOnLine`: distance along the polyline from its
first vertex to the point of the polyline nearest to `p`. -/
def measureOnLine (sq : ℚ → ℚ) (verts : List Pt) (p : Pt) : ℚ :=
  match bestSeg p (segsOf verts) with
  | none => 0
  | some (j, _) =>
    let s := (segsOf verts).getD j dummySeg
    cumLen sq (segsOf verts) j + segParam p s * segLen sq s

/-- The `OnLine_DIST` update of section 14: run the Near analysis on the
(extended) line, measure the near point along the line, and subtract the
buffer distance. -/
def onLineDist (sq : ℚ → ℚ) (verts : List Pt) (buffer : ℚ) (p : Pt) : ℚ :=
  measureOnLine sq verts (nearPoint verts p) - buffer

theorem pdistSq_nonneg (p q : Pt) : 0 ≤ pdistSq p q := by
  unfold pdistSq; positivity

theorem pdistSq_self (p : Pt) : pdistSq p p = 0 := by
  simp [pdistSq]

theorem pdistSq_comm (p q : Pt) : pdistSq p q = pdistSq q p := by
  unfold pdistSq; ring

theorem segSqDist_nonneg (p : Pt) (s : Pt × Pt) : 0 ≤ segSqDist p s :=
  pdistSq_nonneg _ _

theorem segParam_nonneg (p : Pt) (s : Pt × Pt) : 0 ≤ segParam p s :=
  le_max_left _ _

theorem segParam_le_one (p : Pt) (s : Pt × Pt) : segParam p s ≤ 1 :=
  max_le (by norm_num) (min_le_left _ _)

/-- Re-projecting a point of a (non-degenerate) segment onto that segment
recovers its parameter. -/
theorem segParam_segPointAt (s : Pt × Pt) (t : ℚ)
    (hnd : pdistSq s.1 s.2 ≠ 0) (h0 : 0 ≤ t) (h1 : t ≤ 1) :
    segParam (segPointAt s t) s = t := by
  have hdot : dot2 (sub2 (segPointAt s t) s.1) (sub2 s.2 s.1)
      = t * pdistSq s.1 s.2 := by
    simp only [segPointAt, sub2, dot2, pdistSq]
    ring
  unfold segParam
  rw [hdot, mul_div_assoc, div_self hnd, mul_one, min_eq_right h1, max_eq_right h0]

/-- A point of a (non-degenerate) segment is at squared distance zero from
the segment. -/
theorem segSqDist_segPointAt (s : Pt × Pt) (t : ℚ)
    (hnd : pdistSq s.1 s.2 ≠ 0) (h0 : 0 ≤ t) (h1 : t ≤ 1) :
    segSqDist (segPointAt s t) s = 0 := by
  unfold segSqDist
  rw [segParam_segPointAt s t hnd h0 h1, pdistSq_self]

/-- `bestSeg` never fails on a nonempty segment list. -/
theorem bestSeg_isSome (p : Pt) (l : List (Pt × Pt)) (h : l ≠ []) :
    (bestSeg p l).isSome := by
  cases l with
  | nil => simp at h
  | cons s rest =>
    simp only [bestSeg]
    cases bestSeg p rest with
    | none => simp
    | some jd => cases jd with | mk j dj => dsimp only; split <;> simp

/-- Full specification of the first-minimum scan: the returned index is in
range, carries its own squared distance, is a global minimum, and every
earlier segment is strictly farther. -/
theorem bestSeg_spec (p : Pt) (l : List (Pt × Pt)) (j : ℕ) (dj : ℚ)
    (h : bestSeg p l = some (j, dj)) :
    j < l.length ∧ dj = segSqDist p (l.getD j dummySeg) ∧
    (∀ k, k < l.length → dj ≤ segSqDist p (l.getD k dummySeg)) ∧
    (∀ k, k < j → dj < segSqDist p (l.getD k dummySeg)) := by
  induction l generalizing j dj with
  | nil => simp [bestSeg] at h
  | cons s rest ih =>
    simp only [bestSeg] at h
    cases hr : bestSeg p rest with
    | none =>
      have hnil : rest = [] := by
        by_contra hne
        have := bestSeg_isSome p rest hne
        rw [hr] at this
        simp at this
      rw [hr] at h
      simp only [Option.some.injEq, Prod.mk.injEq] at h
      obtain ⟨rfl, rfl⟩ := h
      subst hnil
      refine ⟨by simp, by simp, ?_, by omega⟩
      intro k hk
      have hk0 : k = 0 := by simpa using hk
      subst hk0
      simp
    | some jd =>
      cases jd with
      | mk j' dj' =>
        rw [hr] at h
        have hspec := ih j' dj' hr
        dsimp only at h
        split at h
        case isTrue hle =>
          simp only [Option.some.injEq, Prod.mk.injEq] at h
          obtain ⟨rfl, rfl⟩ := h
          refine ⟨by simp, by simp, ?_, by omega⟩
          intro k hk
          cases k with
          | zero => simp
          | succ k' =>
            simp only [List.getD_cons_succ]
            exact le_trans hle (hspec.2.2.1 k' (by simpa using hk))
        case isFalse hgt =>
          simp only [Option.some.injEq, Prod.mk.injEq] at h
          obtain ⟨rfl, rfl⟩ := h
          push_neg at hgt
          refine ⟨by simpa using hspec.1, by simpa using hspec.2.1, ?_, ?_⟩
          · intro k hk
            cases k with
            | zero => simpa using hgt.le
            | succ k' =>
              simp only [List.getD_cons_succ]
              exact hspec.2.2.1 k' (by simpa using hk)
          · intro k hk
            cases k with
            | zero => simpa using hgt
            | succ k' =>
              simp only [List.getD_cons_succ]
              exact hspec.2.2.2 k' (by omega)

/-- Determination of the first-minimum scan: a segment at squared distance
zero, with all earlier segments strictly farther, is the scan's result. -/
theorem bestSeg_eq_of (q : Pt) (l : List (Pt × Pt)) (j : ℕ)
    (hj : j < l.length)
    (h0 : segSqDist q (l.getD j dummySeg) = 0)
    (hlt : ∀ k, k < j → 0 < segSqDist q (l.getD k dummySeg)) :
    bestSeg q l = some (j, 0) := by
  induction l generalizing j with
  | nil => simp at hj
  | cons s rest ih =>
    cases j with
    | zero =>
      simp only [List.getD_cons_zero] at h0
      simp only [bestSeg]
      cases hr : bestSeg q rest with
      | none => simp [h0]
      | some jd =>
        cases jd with
        | mk j' dj' =>
          have hspec := bestSeg_spec q rest j' dj' hr
          have hnn : 0 ≤ dj' := hspec.2.1 ▸ segSqDist_nonneg q _
          dsimp only
          rw [if_pos (by rw [h0]; exact hnn), h0]
    | succ j' =>
      have h0' : segSqDist q (rest.getD j' dummySeg) = 0 := by simpa using h0
      have hj' : j' < rest.length := by simpa using hj
      have hlt' : ∀ k, k < j' → 0 < segSqDist q (rest.getD k dummySeg) := by
        intro k hk
        simpa using hlt (k + 1) (by omega)
      have ihr := ih j' hj' h0' hlt'
      have hs : 0 < segSqDist q s := by simpa using hlt 0 (by omega)
      simp only [bestSeg, ihr]
      rw [if_neg (by exact not_le.mpr hs)]

/-- Measuring a point that lies on segment `j` of the polyline, with every
earlier segment strictly farther from it, yields the cumulative length of
the first `j` segments plus the partial length along segment `j`. -/
theorem measureOnLine_on_seg (sq : ℚ → ℚ) (verts : List Pt) (j : ℕ) (t : ℚ)
    (hj : j < (segsOf verts).length)
    (hnd : pdistSq ((segsOf verts).getD j dummySeg).1
                   ((segsOf verts).getD j dummySeg).2 ≠ 0)
    (h0 : 0 ≤ t) (h1 : t ≤ 1)
    (hlt : ∀ k, k < j →
      0 < segSqDist (segPointAt ((segsOf verts).getD j dummySeg) t)
            ((segsOf verts).getD k dummySeg)) :
    measureOnLine sq verts (segPointAt ((segsOf verts).getD j dummySeg) t)
      = cumLen sq (segsOf verts) j
          + t * segLen sq ((segsOf verts).getD j dummySeg) := by
  have hbest := bestSeg_eq_of
    (segPointAt ((segsOf verts).getD j dummySeg) t) (segsOf verts) j hj
    (segSqDist_segPointAt _ t hnd h0 h1) hlt
  unfold measureOnLine
  rw [hbest]
  dsimp only
  rw [segParam_segPointAt _ t hnd h0 h1]

/-- A square-root oracle that is correct at `x = c ^ 2` with `0 ≤ c`
returns exactly `c` there. -/
theorem sqrt_val (sq : ℚ → ℚ) (x c : ℚ) (h : IsSqrtAt sq x)
    (hx : x = c ^ 2) (hc : 0 ≤ c) : sq x = c := by
  subst hx
  obtain ⟨h0, h2⟩ := h
  nlinarith [sq_nonneg (sq (c ^ 2) - c), sq_nonneg (sq (c ^ 2) + c)]

theorem segsOf_cons₂ (a b : Pt) (T : List Pt) :
    segsOf (a :: b :: T) = (a, b) :: segsOf (b :: T) := rfl

/-- Unfolding of `extendLine` on a two-vertex line. -/
theorem extendLine_two (sq : ℚ → ℚ) (v0 v1 : Pt) (d : ℚ) :
    extendLine sq [v0, v1] d
      = [extendPoint sq v1 v0 d, extendPoint sq v0 v1 d] := by
  simp [extendLine]

/-- Unfolding of `extendLine` on a line with at least three vertices:
the first vertex is replaced, the second is untouched. -/
theorem extendLine_cons₃ (sq : ℚ → ℚ) (v0 v1 r : Pt) (rest' : List Pt) (d : ℚ) :
    extendLine sq (v0 :: v1 :: r :: rest') d
      = extendPoint sq v1 v0 d :: v1 ::
          ((r :: rest').set rest'.length
            (extendPoint sq ((v0 :: v1 :: r :: rest').dropLast.getLastD v0)
              ((v1 :: r :: rest').getLastD v1) d)) := by
  show ((v0 :: v1 :: r :: rest').set 0 _).set ((v0 :: v1 :: r :: rest').length - 1) _ = _
  have hlen : (v0 :: v1 :: r :: rest').length - 1 = rest'.length + 1 + 1 := by
    simp
  rw [List.set_cons_zero, hlen, List.set_cons_succ, List.set_cons_succ]

/-- Measuring a point of the first segment of a polyline yields the partial
length along that segment. -/
theorem measure_first_seg (sq : ℚ → ℚ) (verts : List Pt) (s0 : Pt × Pt)
    (tl : List (Pt × Pt)) (t : ℚ)
    (hsegs : segsOf verts = s0 :: tl)
    (hnd : pdistSq s0.1 s0.2 ≠ 0) (h0 : 0 ≤ t) (h1 : t ≤ 1) :
    measureOnLine sq verts (segPointAt s0 t) = t * segLen sq s0 := by
  have hj : (0 : ℕ) < (segsOf verts).length := by rw [hsegs]; simp
  have hgd : (segsOf verts).getD 0 dummySeg = s0 := by rw [hsegs]; rfl
  have := measureOnLine_on_seg sq verts 0 t hj (by rw [hgd]; exact hnd) h0 h1
    (by omega)
  rw [hgd] at this
  rw [this]
  simp [cumLen]

/-- The Near analysis maps a point whose closest segment is the first one to
its clamped projection on that segment. -/
theorem nearPoint_first_seg (verts : List Pt) (p : Pt) (s0 : Pt × Pt)
    (tl : List (Pt × Pt)) (dj : ℚ)
    (hsegs : segsOf verts = s0 :: tl)
    (hbest : bestSeg p (segsOf verts) = some (0, dj)) :
    nearPoint verts p = segPointAt s0 (segParam p s0) := by
  unfold nearPoint
  rw [hbest]
  dsimp only
  rw [hsegs]
  rfl

/-- A point lying on the (non-degenerate) first segment of the polyline is
its own Near-analysis result. -/
theorem nearPoint_of_on_first_seg (verts : List Pt) (s0 : Pt × Pt)
    (tl : List (Pt × Pt)) (t : ℚ)
    (hsegs : segsOf verts = s0 :: tl)
    (hnd : pdistSq s0.1 s0.2 ≠ 0) (h0 : 0 ≤ t) (h1 : t ≤ 1) :
    nearPoint verts (segPointAt s0 t) = segPointAt s0 t := by
  have hbest : bestSeg (segPointAt s0 t) (segsOf verts) = some (0, 0) := by
    apply bestSeg_eq_of
    · rw [hsegs]; simp
    · rw [hsegs]
      simpa using segSqDist_segPointAt s0 t hnd h0 h1
    · omega
  rw [nearPoint_first_seg verts _ s0 tl 0 hsegs hbest,
    segParam_segPointAt s0 t hnd h0 h1]

/-- If `v0` sits on the first segment of the reference line at fractional
position `d / c` (where `c` is the segment's true length and `d ≤ c`), its
`OnLine_DIST` value is zero. -/
theorem onLineDist_start_aux (sq : ℚ → ℚ) (verts : List Pt) (v0 : Pt)
    (s0 : Pt × Pt) (tl : List (Pt × Pt)) (d c : ℚ)
    (hsegs : segsOf verts = s0 :: tl) (hd : 0 < d) (hc : 0 < c) (hdc : d ≤ c)
    (hlen : pdistSq s0.1 s0.2 = c ^ 2)
    (hτ : segPointAt s0 (d / c) = v0)
    (hS : IsSqrtAt sq (pdistSq s0.1 s0.2)) :
    onLineDist sq verts d v0 = 0 := by
  have hnd : pdistSq s0.1 s0.2 ≠ 0 := by rw [hlen]; positivity
  have ht0 : 0 ≤ d / c := by positivity
  have ht1 : d / c ≤ 1 := (div_le_one hc).mpr hdc
  have hsl : segLen sq s0 = c := sqrt_val sq _ c hS hlen hc.le
  unfold onLineDist
  rw [← hτ, nearPoint_of_on_first_seg verts s0 tl _ hsegs hnd ht0 ht1,
    measure_first_seg sq verts s0 tl _ hsegs hnd ht0 ht1, hsl,
    div_mul_cancel₀ _ (ne_of_gt hc)]
  ring

/-- Coordinate form of the squared length of the single segment of an
extended two-vertex line. -/
theorem extend_len_nil (x0 y0 x1 y1 l d : ℚ) (hl : l ≠ 0)
    (h2 : l ^ 2 = (x1 - x0) ^ 2 + (y1 - y0) ^ 2) :
    ((x0 + d * (x0 - x1) / l) - (x1 + d * (x1 - x0) / l)) ^ 2
      + ((y0 + d * (y0 - y1) / l) - (y1 + d * (y1 - y0) / l)) ^ 2
    = (l + 2 * d) ^ 2 := by
  field_simp
  linear_combination (-((l + 2 * d) ^ 2)) * h2

/-- Coordinate form of the squared length of the first segment of an
extended line with at least three vertices. -/
theorem extend_len_cons (x0 y0 x1 y1 l d : ℚ) (hl : l ≠ 0)
    (h2 : l ^ 2 = (x1 - x0) ^ 2 + (y1 - y0) ^ 2) :
    ((x0 + d * (x0 - x1) / l) - x1) ^ 2 + ((y0 + d * (y0 - y1) / l) - y1) ^ 2
    = (l + d) ^ 2 := by
  field_simp
  linear_combination (-((l + d) ^ 2)) * h2

/-- The original start vertex sits at parameter `d / (l + 2d)` of the single
segment of an extended two-vertex line. -/
theorem extend_pt_nil (x0 y0 x1 y1 l d : ℚ) (hl : l ≠ 0) (h2 : l + 2 * d ≠ 0) :
    segPointAt ((x0 + d * (x0 - x1) / l, y0 + d * (y0 - y1) / l),
                (x1 + d * (x1 - x0) / l, y1 + d * (y1 - y0) / l))
        (d / (l + 2 * d))
      = (x0, y0) := by
  unfold segPointAt
  apply Prod.ext <;> dsimp only <;> field_simp <;> ring

/-- The original start vertex sits at parameter `d / (l + d)` of the first
segment of an extended line with at least three vertices. -/
theorem extend_pt_cons (x0 y0 x1 y1 l d : ℚ) (hl : l ≠ 0) (h2 : l + d ≠ 0) :
    segPointAt ((x0 + d * (x0 - x1) / l, y0 + d * (y0 - y1) / l), (x1, y1))
        (d / (l + d))
      = (x0, y0) := by
  unfold segPointAt
  apply Prod.ext <;> dsimp only <;> field_simp <;> ring

/-- Zero at origin: the original first vertex of the cross-section line lies
on the first segment of the extended line at along-line distance exactly
`d`, so its `OnLine_DIST` is `0`. -/
theorem onLineDist_start (sq : ℚ → ℚ) (v0 v1 : Pt) (rest : List Pt) (d : ℚ)
    (hd : 0 < d)
    (hL : IsSqrtAt sq (pdistSq v1 v0))
    (hP : pdistSq v1 v0 ≠ 0)
    (hS : IsSqrtAt sq
      (pdistSq ((segsOf (extendLine sq (v0 :: v1 :: rest) d)).getD 0 dummySeg).1
               ((segsOf (extendLine sq (v0 :: v1 :: rest) d)).getD 0 dummySeg).2)) :
    onLineDist sq (extendLine sq (v0 :: v1 :: rest) d) d v0 = 0 := by
  have hL2 : (sq (pdistSq v1 v0)) ^ 2 = (v1.1 - v0.1) ^ 2 + (v1.2 - v0.2) ^ 2 := by
    simpa [pdistSq] using hL.2
  have hLne : sq (pdistSq v1 v0) ≠ 0 := by
    intro h
    apply hP
    rw [← hL.2, h]
    ring
  have hLpos : 0 < sq (pdistSq v1 v0) := lt_of_le_of_ne hL.1 (Ne.symm hLne)
  have hEP2 : extendPoint sq v0 v1 d
      = (v1.1 + d * (v1.1 - v0.1) / sq (pdistSq v1 v0),
         v1.2 + d * (v1.2 - v0.2) / sq (pdistSq v1 v0)) := by
    simp only [extendPoint, pdistSq_comm v0 v1]
  cases rest with
  | nil =>
    rw [extendLine_two] at hS ⊢
    have hS' : IsSqrtAt sq
        (pdistSq (extendPoint sq v1 v0 d) (extendPoint sq v0 v1 d)) := hS
    have hlen : pdistSq (extendPoint sq v1 v0 d) (extendPoint sq v0 v1 d)
        = (sq (pdistSq v1 v0) + 2 * d) ^ 2 := by
      rw [hEP2]
      exact extend_len_nil v0.1 v0.2 v1.1 v1.2 (sq (pdistSq v1 v0)) d hLne hL2
    have hτ : segPointAt (extendPoint sq v1 v0 d, extendPoint sq v0 v1 d)
        (d / (sq (pdistSq v1 v0) + 2 * d)) = v0 := by
      show segPointAt (extendPoint sq v1 v0 d, extendPoint sq v0 v1 d) _ = v0
      rw [hEP2]
      exact extend_pt_nil v0.1 v0.2 v1.1 v1.2 (sq (pdistSq v1 v0)) d hLne
        (by linarith)
    exact onLineDist_start_aux sq _ v0
      (extendPoint sq v1 v0 d, extendPoint sq v0 v1 d) [] d
      (sq (pdistSq v1 v0) + 2 * d) rfl hd (by linarith) (by linarith) hlen hτ hS'
  | cons r rest' =>
    rw [extendLine_cons₃] at hS ⊢
    have hS' : IsSqrtAt sq (pdistSq (extendPoint sq v1 v0 d) v1) := hS
    have hlen : pdistSq (extendPoint sq v1 v0 d) v1
        = (sq (pdistSq v1 v0) + d) ^ 2 := by
      exact extend_len_cons v0.1 v0.2 v1.1 v1.2 (sq (pdistSq v1 v0)) d hLne hL2
    have hτ : segPointAt (extendPoint sq v1 v0 d, v1)
        (d / (sq (pdistSq v1 v0) + d)) = v0 := by
      exact extend_pt_cons v0.1 v0.2 v1.1 v1.2 (sq (pdistSq v1 v0)) d hLne
        (by linarith)
    exact onLineDist_start_aux sq _ v0 (extendPoint sq v1 v0 d, v1) _ d
      (sq (pdistSq v1 v0) + d) rfl hd (by linarith) (by linarith) hlen hτ hS'

/-- Re-measuring the Near-analysis point (as section 14 does) yields the same
value as measuring the original query point directly, provided the chosen
segment is non-degenerate and the near point does not also lie on an earlier
segment of the line. -/
theorem measure_nearPoint (sq : ℚ → ℚ) (verts : List Pt) (p : Pt) (j : ℕ)
    (dj : ℚ)
    (hb : bestSeg p (segsOf verts) = some (j, dj))
    (hnd : pdistSq ((segsOf verts).getD j dummySeg).1
                   ((segsOf verts).getD j dummySeg).2 ≠ 0)
    (hlt : ∀ k, k < j →
      0 < segSqDist (nearPoint verts p) ((segsOf verts).getD k dummySeg)) :
    measureOnLine sq verts (nearPoint verts p) = measureOnLine sq verts p := by
  have hjlen : j < (segsOf verts).length := (bestSeg_spec p _ j dj hb).1
  have hnear : nearPoint verts p
      = segPointAt ((segsOf verts).getD j dummySeg)
          (segParam p ((segsOf verts).getD j dummySeg)) := by
    unfold nearPoint
    rw [hb]
  rw [hnear] at hlt
  have h0 := segParam_nonneg p ((segsOf verts).getD j dummySeg)
  have h1 := segParam_le_one p ((segsOf verts).getD j dummySeg)
  have hm := measureOnLine_on_seg sq verts j
    (segParam p ((segsOf verts).getD j dummySeg)) hjlen hnd h0 h1 hlt
  rw [hnear, hm]
  unfold measureOnLine
  rw [hb]

/-- A query point whose nearest line position falls on the first segment
strictly before along-line distance `b` gets a negative `OnLine_DIST`. -/
theorem onLineDist_neg_on_ext (sq : ℚ → ℚ) (verts : List Pt) (b : ℚ) (p : Pt)
    (s0 : Pt × Pt) (tl : List (Pt × Pt)) (dj : ℚ)
    (hsegs : segsOf verts = s0 :: tl)
    (hnd : pdistSq s0.1 s0.2 ≠ 0)
    (hbest : bestSeg p (segsOf verts) = some (0, dj))
    (hlt : segParam p s0 * segLen sq s0 < b) :
    onLineDist sq verts b p < 0 := by
  have hnear := nearPoint_first_seg verts p s0 tl dj hsegs hbest
  unfold onLineDist
  rw [hnear, measure_first_seg sq verts s0 tl _ hsegs hnd
    (segParam_nonneg p s0) (segParam_le_one p s0)]
  linarith

/-- C1.  The computed `OnLine_DIST` of a well point equals the cumulative
planar distance along the extended reference line from its first vertex to
the well's nearest point on that line (`measureOnLine` of the query point),
minus the buffer distance; a point coincident with the original line's start
vertex yields measure `0` exactly; and a point whose nearest line position
falls on the prepended extension segment strictly before the original start
(along-line distance `< bufferDistance`) yields a negative measure.  The
genericity hypotheses require the relevant segment to be non-degenerate, the
near point not to lie on an earlier (self-overlapping) segment, and the
square-root oracle to be correct at the segment lengths involved. -/
theorem C1_measure_semantics :
    (∀ (sq : ℚ → ℚ) (verts : List Pt) (b : ℚ) (p : Pt) (j : ℕ) (dj : ℚ),
      bestSeg p (segsOf verts) = some (j, dj) →
      pdistSq ((segsOf verts).getD j dummySeg).1
              ((segsOf verts).getD j dummySeg).2 ≠ 0 →
      (∀ k, k < j →
        0 < segSqDist (nearPoint verts p) ((segsOf verts).getD k dummySeg)) →
      onLineDist sq verts b p = measureOnLine sq verts p - b) ∧
    (∀ (sq : ℚ → ℚ) (v0 v1 : Pt) (rest : List Pt) (d : ℚ),
      0 < d → IsSqrtAt sq (pdistSq v1 v0) → pdistSq v1 v0 ≠ 0 →
      IsSqrtAt sq
        (pdistSq
          ((segsOf (extendLine sq (v0 :: v1 :: rest) d)).getD 0 dummySeg).1
          ((segsOf (extendLine sq (v0 :: v1 :: rest) d)).getD 0 dummySeg).2) →
      onLineDist sq (extendLine sq (v0 :: v1 :: rest) d) d v0 = 0) ∧
    (∀ (sq : ℚ → ℚ) (verts : List Pt) (b : ℚ) (p : Pt) (s0 : Pt × Pt)
      (tl : List (Pt × Pt)) (dj : ℚ),
      segsOf verts = s0 :: tl → pdistSq s0.1 s0.2 ≠ 0 →
      bestSeg p (segsOf verts) = some (0, dj) →
      segParam p s0 * segLen sq s0 < b →
      onLineDist sq verts b p < 0) := by
  refine ⟨?_, ?_, ?_⟩
  · intro sq verts b p j dj hb hnd hlt
    unfold onLineDist
    rw [measure_nearPoint sq verts p j dj hb hnd hlt]
  · intro sq v0 v1 rest d hd hL hP hS
    exact onLineDist_start sq v0 v1 rest d hd hL hP hS
  · intro sq verts b p s0 tl dj hsegs hnd hbest hlt
    exact onLineDist_neg_on_ext sq verts b p s0 tl dj hsegs hnd hbest hlt

/-- Square-root oracle used by the concrete witnesses: correct at the two
squared lengths that arise on the witness line. -/
def sqW : ℚ → ℚ := fun x => if x = 100 then 10 else if x = 400 then 20 else 0

/-- Witness cross-section line: a straight two-vertex line from `(0,0)` to
`(10,0)`. -/
def wVerts : List Pt := [(0, 0), (10, 0)]

/-- The witness line extended by buffer distance `5`:
`[(-5, 0), (15, 0)]`. -/
def wExt : List Pt := extendLine sqW wVerts 5

/-- Concrete check of `C1_measure_semantics`: on the extended witness line,
the measure of `(3, 4)` is its direct `measureOnLine` value minus the
buffer, the original start vertex `(0, 0)` has measure `0`, and `(-3, 2)`
(projecting onto the prepended extension) has a negative measure. -/
theorem C1_measure_semantics_witness :
    onLineDist sqW wExt 5 (3, 4) = measureOnLine sqW wExt (3, 4) - 5 ∧
    onLineDist sqW (extendLine sqW ((0, 0) :: (10, 0) :: []) 5) 5 (0, 0) = 0 ∧
    onLineDist sqW wExt 5 (-3, 2) < 0 := by
  refine ⟨?_, ?_, ?_⟩
  · exact C1_measure_semantics.1 sqW wExt 5 (3, 4) 0 16
      (by norm_num [wExt, wVerts, extendLine, extendPoint, sqW, pdistSq,
        segsOf, bestSeg, segSqDist, segParam, segPointAt, dot2, sub2])
      (by norm_num [wExt, wVerts, extendLine, extendPoint, sqW, pdistSq,
        segsOf, dummySeg])
      (fun k hk => absurd hk (Nat.not_lt_zero k))
  · exact C1_measure_semantics.2.1 sqW (0, 0) (10, 0) [] 5
      (by norm_num)
      (by norm_num [IsSqrtAt, sqW, pdistSq])
      (by norm_num [pdistSq])
      (by norm_num [IsSqrtAt, sqW, pdistSq, extendLine, extendPoint,
        segsOf, dummySeg])
  · exact C1_measure_semantics.2.2 sqW wExt 5 (-3, 2) ((-5, 0), (15, 0)) [] 4
      (by norm_num [wExt, wVerts, extendLine, extendPoint, sqW, pdistSq,
        segsOf])
      (by norm_num [pdistSq])
      (by norm_num [wExt, wVerts, extendLine, extendPoint, sqW, pdistSq,
        segsOf, bestSeg, segSqDist, segParam, segPointAt, dot2, sub2])
      (by norm_num [segParam, segLen, sqW, pdistSq, dot2, sub2])

/-- A correct square-root oracle is nonzero at a nonzero input. -/
theorem sqrt_ne_zero (sq : ℚ → ℚ) (x : ℚ) (h : IsSqrtAt sq x) (hx : x ≠ 0) :
    sq x ≠ 0 := by
  intro h0
  apply hx
  rw [← h.2, h0]
  ring

/-- Coordinate form: the point projected from `(xb, yb)` away from
`(xa, ya)` by `d` is at planar distance `d` (squared distance `d ^ 2`). -/
theorem proj_dist (xa ya xb yb l d : ℚ) (hl : l ≠ 0)
    (h2 : l ^ 2 = (xb - xa) ^ 2 + (yb - ya) ^ 2) :
    ((xb + d * (xb - xa) / l) - xb) ^ 2 + ((yb + d * (yb - ya) / l) - yb) ^ 2
      = d ^ 2 := by
  field_simp
  linear_combination (-(d ^ 2)) * h2

/-- C3.  The extended reference line keeps the vertex count and all interior
vertices of the input; its new first vertex is the point projected from
`vertex[0]` along the bearing from `vertex[1]` toward `vertex[0]` at
distance `d` (and indeed sits at squared distance `d ^ 2` from `vertex[0]`),
and its new last vertex is the point projected from the last original vertex
along the bearing from the second-to-last toward the last, likewise at
distance `d`. -/
theorem C3_extendLine_shape :
    ∀ (sq : ℚ → ℚ) (v0 v1 : Pt) (rest : List Pt) (d : ℚ) (vl vp : Pt),
      0 < d →
      (v0 :: v1 :: rest).getLast? = some vl →
      (v0 :: v1 :: rest).dropLast.getLastD v0 = vp →
      IsSqrtAt sq (pdistSq v1 v0) → pdistSq v1 v0 ≠ 0 →
      IsSqrtAt sq (pdistSq vp vl) → pdistSq vp vl ≠ 0 →
      (extendLine sq (v0 :: v1 :: rest) d).length
          = (v0 :: v1 :: rest).length ∧
      (∀ i, 0 < i → i < (v0 :: v1 :: rest).length - 1 →
        (extendLine sq (v0 :: v1 :: rest) d).getD i (0, 0)
          = (v0 :: v1 :: rest).getD i (0, 0)) ∧
      (extendLine sq (v0 :: v1 :: rest) d).getD 0 (0, 0)
        = (v0.1 + d * (v0.1 - v1.1) / sq (pdistSq v1 v0),
           v0.2 + d * (v0.2 - v1.2) / sq (pdistSq v1 v0)) ∧
      pdistSq ((extendLine sq (v0 :: v1 :: rest) d).getD 0 (0, 0)) v0
        = d ^ 2 ∧
      (extendLine sq (v0 :: v1 :: rest) d).getD
          ((v0 :: v1 :: rest).length - 1) (0, 0)
        = (vl.1 + d * (vl.1 - vp.1) / sq (pdistSq vp vl),
           vl.2 + d * (vl.2 - vp.2) / sq (pdistSq vp vl)) ∧
      pdistSq ((extendLine sq (v0 :: v1 :: rest) d).getD
          ((v0 :: v1 :: rest).length - 1) (0, 0)) vl = d ^ 2 := by
  intro sq v0 v1 rest d vl vp hd hvl hvp hLB hPB hLE hPE
  have hvl' : (v1 :: rest).getLastD v1 = vl := by
    rw [List.getLastD_eq_getLast?, ← List.getLast?_cons_cons (a := v0), hvl]
    rfl
  have hE : extendLine sq (v0 :: v1 :: rest) d
      = (((v0 :: v1 :: rest).set 0 (extendPoint sq v1 v0 d)).set
          ((v0 :: v1 :: rest).length - 1) (extendPoint sq vp vl d)) := by
    show (((v0 :: v1 :: rest).set 0 _).set _ _) = _
    rw [hvp, hvl']
  have hLBne : sq (pdistSq v1 v0) ≠ 0 := sqrt_ne_zero sq _ hLB hPB
  have hLEne : sq (pdistSq vp vl) ≠ 0 := sqrt_ne_zero sq _ hLE hPE
  have hlen : (extendLine sq (v0 :: v1 :: rest) d).length
      = (v0 :: v1 :: rest).length := by
    rw [hE]
    simp
  have hlast_lt : (v0 :: v1 :: rest).length - 1 < (v0 :: v1 :: rest).length := by
    simp
  have hhead : (extendLine sq (v0 :: v1 :: rest) d).getD 0 (0, 0)
      = extendPoint sq v1 v0 d := by
    rw [hE, List.getD_eq_getElem _ _ (by simp)]
    rw [List.getElem_set_ne (by simp) _, List.getElem_set_self (by simp)]
  have hlast : (extendLine sq (v0 :: v1 :: rest) d).getD
      ((v0 :: v1 :: rest).length - 1) (0, 0) = extendPoint sq vp vl d := by
    rw [hE, List.getD_eq_getElem _ _ (by simp)]
    rw [List.getElem_set_self (by simp)]
  refine ⟨hlen, ?_, ?_, ?_, ?_, ?_⟩
  · intro i h0 h1
    have hn : (v0 :: v1 :: rest).length = rest.length + 2 := by simp
    rw [hE, List.getD_eq_getElem _ _ (by simp only [List.length_set]; omega),
      List.getD_eq_getElem _ _ (by omega)]
    rw [List.getElem_set_ne (by omega), List.getElem_set_ne (by omega)]
  · rw [hhead]
    rfl
  · rw [hhead]
    have h2 : (sq (pdistSq v1 v0)) ^ 2 = (v0.1 - v1.1) ^ 2 + (v0.2 - v1.2) ^ 2 := by
      have := hLB.2
      simp only [pdistSq] at this ⊢
      linear_combination this
    exact proj_dist v1.1 v1.2 v0.1 v0.2 (sq (pdistSq v1 v0)) d hLBne h2
  · rw [hlast]
    rfl
  · rw [hlast]
    have h2 : (sq (pdistSq vp vl)) ^ 2 = (vl.1 - vp.1) ^ 2 + (vl.2 - vp.2) ^ 2 := by
      have := hLE.2
      simp only [pdistSq] at this ⊢
      linear_combination this
    exact proj_dist vp.1 vp.2 vl.1 vl.2 (sq (pdistSq vp vl)) d hLEne h2

/-- Concrete check of `C3_extendLine_shape` on the witness line
`[(0,0), (10,0)]` with buffer distance `5`. -/
theorem C3_extendLine_shape_witness :
    (extendLine sqW ((0, 0) :: (10, 0) :: []) 5).length
        = ((0, 0) :: (10, 0) :: ([] : List Pt)).length ∧
    (∀ i, 0 < i → i < ((0, 0) :: (10, 0) :: ([] : List Pt)).length - 1 →
      (extendLine sqW ((0, 0) :: (10, 0) :: []) 5).getD i (0, 0)
        = ((0, 0) :: (10, 0) :: ([] : List Pt)).getD i (0, 0)) ∧
    (extendLine sqW ((0, 0) :: (10, 0) :: []) 5).getD 0 (0, 0)
      = ((0 : ℚ) + 5 * ((0 : ℚ) - 10) / sqW (pdistSq (10, 0) (0, 0)),
         (0 : ℚ) + 5 * ((0 : ℚ) - 0) / sqW (pdistSq (10, 0) (0, 0))) ∧
    pdistSq ((extendLine sqW ((0, 0) :: (10, 0) :: []) 5).getD 0 (0, 0)) (0, 0)
      = 5 ^ 2 ∧
    (extendLine sqW ((0, 0) :: (10, 0) :: []) 5).getD
        (((0, 0) :: (10, 0) :: ([] : List Pt)).length - 1) (0, 0)
      = ((10 : ℚ) + 5 * ((10 : ℚ) - 0) / sqW (pdistSq (0, 0) (10, 0)),
         (0 : ℚ) + 5 * ((0 : ℚ) - 0) / sqW (pdistSq (0, 0) (10, 0))) ∧
    pdistSq ((extendLine sqW ((0, 0) :: (10, 0) :: []) 5).getD
        (((0, 0) :: (10, 0) :: ([] : List Pt)).length - 1) (0, 0)) (10, 0)
      = 5 ^ 2 :=
  C3_extendLine_shape sqW (0, 0) (10, 0) [] 5 (10, 0) (0, 0)
    (by norm_num)
    (by rfl)
    (by rfl)
    (by norm_num [IsSqrtAt, sqW, pdistSq])
    (by norm_num [pdistSq])
    (by norm_num [IsSqrtAt, sqW, pdistSq])
    (by norm_num [pdistSq])

/-! ## Table records and the per-record geometry loop (sections 7 and 17) -/

/-- A well identifier: the well-id field of the input tables is either
numeric or text (text content abstracted to a character list). -/
inductive WellId
  | num (n : Int)
  | txt (s : List Char)
deriving DecidableEq

/-- The data type tag inspected by the section-7 type-consistency check
(`type(strat_wellid_list[0]) != type(wwpt_wellid_list[0])`). -/
def WellId.isNumeric : WellId → Bool
  | .num _ => true
  | .txt _ => false

/-- Comparison used to model `arcpy.management.Sort` on the well-id field
(ascending; numeric ids sort among themselves, text ids among themselves). -/
def wellIdLe : WellId → WellId → Bool
  | .num a, .num b => decide (a ≤ b)
  | .num _, .txt _ => true
  | .txt _, .num _ => false
  | .txt a, .txt b => decide (a ≤ b)

/-- A record of the merged well point file `wwpt_unloc_merge` as consumed by
section 17: true coordinates, cross-section id (text content abstracted to
an opaque token), and the `OnLine_DIST` / `NEAR_DIST` fields populated by
section 14. -/
structure WellPt where
  wellid : WellId
  etid : Int
  shapeX : ℚ
  shapeY : ℚ
  onLineDist : ℚ
  nearDist : ℚ
deriving DecidableEq

/-- A stratigraphy table record as read by section 17's search cursor. -/
structure StratRec where
  oid : Int
  wellid : WellId
  elevTop : Option ℚ
  elevBot : Option ℚ
deriving DecidableEq

/-- A 3D well-stick segment row of `lixpys_unloc_3d`. -/
structure Seg3D where
  wellid : WellId
  etid : Int
  pA : ℚ × ℚ × ℚ
  pB : ℚ × ℚ × ℚ
  xCoord : ℚ
  yCoord : ℚ
  zTop : ℚ
  zBot : ℚ
  stratOid : Int

/-- A 2D well-stick segment row of `lixpys_unloc_2d_line`: the drawing-space
endpoints plus the attribute columns written by the insert cursor. -/
structure Seg2D where
  wellid : WellId
  etid : Int
  pA : Pt
  pB : Pt
  xCoord : ℚ
  yCoord : ℚ
  zTop : ℚ
  zBot : ℚ
  stratOid : Int
  distance : ℚ
  pctDist : ℚ

/-- The section-17 where-clause query on the merged well point file: all
well points whose well id equals the strat record's well id, in cursor
(list) order. -/
def matchesFor (wwpt : List WellPt) (wid : WellId) : List WellPt :=
  wwpt.filter (fun w => decide (w.wellid = wid))

/-- The spec's `CrossSectionTransform` for the horizontal axis:
`xDrawing = (measure / 0.3048) / verticalExaggeration`. -/
def xDrawing (measure ve : ℚ) : ℚ := measure / 0.3048 / ve

/-- The section-17 loop body once a matching well point `w` (the last one in
cursor order) is fixed: build the true-coordinate 3D stick segment and the
drawing-space 2D stick segment with their attribute values. -/
def buildSegs (bufferDist ve : Int) (r : StratRec) (zt zb : ℚ) (w : WellPt) :
    Seg3D × Seg2D :=
  (⟨r.wellid, w.etid, (w.shapeX, w.shapeY, zt), (w.shapeX, w.shapeY, zb),
    w.shapeX, w.shapeY, zt, zb, r.oid⟩,
   ⟨r.wellid, w.etid,
    (w.onLineDist / 0.3048 / (ve : ℚ), zt),
    (w.onLineDist / 0.3048 / (ve : ℚ), zb),
    w.shapeX, w.shapeY, zt, zb, r.oid, w.nearDist,
    w.nearDist / (bufferDist : ℚ) * 200⟩)

/-- Outcome of one iteration of the section-17 cursor loop: skip with a
per-record printed message when `elev_top` or `elev_bot` is null, append the
well id to `nomatch_list` when no well point matches, otherwise emit one 3D
and one 2D segment from the last matching well point. -/
inductive RecOutcome
  | nullSkip (oid : Int)
  | noMatch (wellid : WellId)
  | emit (s3 : Seg3D) (s2 : Seg2D)

/-- One iteration of the section-17 loop. -/
def stratRecordOutcome (bufferDist ve : Int) (wwpt : List WellPt)
    (r : StratRec) : RecOutcome :=
  match r.elevTop with
  | none => .nullSkip r.oid
  | some zt =>
    match r.elevBot with
    | none => .nullSkip r.oid
    | some zb =>
      match (matchesFor wwpt r.wellid).getLast? with
      | none => .noMatch r.wellid
      | some w =>
        .emit (buildSegs bufferDist ve r zt zb w).1
              (buildSegs bufferDist ve r zt zb w).2

/-- Accumulated result of the section-17 loop: the two output segment
collections, the `nomatch_list` aggregated for the end-of-run summary, and
the strat oids for which a per-record null-elevation message was printed. -/
structure StratLoopResult where
  segs3d : List Seg3D
  segs2d : List Seg2D
  nomatchList : List WellId
  nullSkipOids : List Int

/-- The whole section-17 loop over the stratigraphy table. -/
def processStrat (bufferDist ve : Int) (wwpt : List WellPt) :
    List StratRec → StratLoopResult
  | [] => ⟨[], [], [], []⟩
  | r :: rest =>
    let res := processStrat bufferDist ve wwpt rest
    match stratRecordOutcome bufferDist ve wwpt r with
    | .nullSkip oid => ⟨res.segs3d, res.segs2d, res.nomatchList,
        oid :: res.nullSkipOids⟩
    | .noMatch wid => ⟨res.segs3d, res.segs2d, wid :: res.nomatchList,
        res.nullSkipOids⟩
    | .emit s3 s2 => ⟨s3 :: res.segs3d, s2 :: res.segs2d, res.nomatchList,
        res.nullSkipOids⟩

/-! ## Stick polygons (section 20) -/

/-- A buffered stick polygon.  The platform's buffer tool is the spec's
black-box geometric operator, so the polygon records the buffered segment,
the buffer distance (`bufferdist`, the half-width), and the flat-cap flag
(`'FLAT'` line end type). -/
structure StickPoly where
  seg : Seg2D
  halfWidth : ℚ
  flatCaps : Bool

/-- `arcpy.analysis.Buffer(..., bufferdist, '', 'FLAT', ..., 'PLANAR')` on
one 2D stick segment. -/
def bufferFlat (s : Seg2D) (dist : ℚ) : StickPoly := ⟨s, dist, true⟩

/-- Section 20: buffer every 2D stick segment with half-width
`130 / vertical_exaggeration + well_stick_width` and flat caps, then sort
the polygon file by the well-id field. -/
def makeStickPolygons (ve : Int) (wellStickWidth : ℚ) (segs : List Seg2D) :
    List StickPoly :=
  (segs.map (fun s => bufferFlat s (130 / (ve : ℚ) + wellStickWidth))).mergeSort
    (fun a b => wellIdLe a.seg.wellid b.seg.wellid)

/-! ## Raster profile 2D conversion (`RasterProfiles.py` section 6) -/

/-- The inner vertex loop of `RasterProfiles.py`: each 3D profile vertex is
mapped to `(measureOnLine / 0.3048 / vertical_exaggeration, vertex.Z)`. -/
def profilePoints2D (sq : ℚ → ℚ) (xslnVerts : List Pt) (ve : Int)
    (profVerts : List (ℚ × ℚ × ℚ)) : List Pt :=
  profVerts.map (fun v =>
    (measureOnLine sq xslnVerts (v.1, v.2.1) / 0.3048 / (ve : ℚ), v.2.2))

/-! ## Data QC and identifier reconciliation (sections 5-7), run skeleton -/

/-- First-occurrence deduplication, as the section-7 list-building loops do
(`if wellid not in list: list.append(wellid)`). -/
def firstDedup {α : Type} [DecidableEq α] : List α → List α
  | [] => []
  | a :: rest => a :: (firstDedup rest).filter (fun b => decide (b ≠ a))

/-- Ways `CreateLixpys_unloc.py` can terminate before producing output:
the two `raise SystemExit` configuration checks of section 5, the uncaught
`IndexError` of the section-7 type-consistency check on an empty id list,
and the uncaught geoprocessing error of section 16's
`arcpy.management.Merge` when the cross-section collection is empty and so
zero per-line well files exist to merge. -/
inductive LixHalt
  | bufferNonpositive
  | veNonpositive
  | typeCheckError
  | mergeEmptyError
deriving DecidableEq

/-- The section-7 reconciliation report: the four orphan lists (printed as
warnings) and the well-id type-mismatch flag. -/
structure ReconcileReport where
  orphanStrat : List WellId
  orphanWell : List WellId
  orphanWwptEtid : List Int
  orphanXslnEtid : List Int
  typeMismatch : Bool

/-- Section 7: deduplicate the id columns, compute the four set differences
(each only printed as a warning), then compare the types of the first
elements of the two well-id lists — which raises an uncaught `IndexError`
when either list is empty. -/
def reconcile (stratCol wwptCol : List WellId)
    (wwptEtidCol xslnEtidCol : List Int) :
    Except LixHalt ReconcileReport :=
  let stratIds := firstDedup stratCol
  let wwptIds := firstDedup wwptCol
  let wwptEtids := firstDedup wwptEtidCol
  let xslnEtids := firstDedup xslnEtidCol
  match stratIds.head?, wwptIds.head? with
  | some s0, some w0 =>
    .ok ⟨stratIds.filter (fun i => decide (i ∉ wwptIds)),
         wwptIds.filter (fun i => decide (i ∉ stratIds)),
         wwptEtids.filter (fun e => decide (e ∉ xslnEtids)),
         xslnEtids.filter (fun e => decide (e ∉ wwptEtids)),
         s0.isNumeric != w0.isNumeric⟩
  | _, _ => .error .typeCheckError

/-- The tool's configuration parameters (`buffer_dist` and
`vertical_exaggeration` are read with `int(...)`). -/
structure LixConfig where
  bufferDist : Int
  verticalExaggeration : Int
  wellStickWidth : ℚ

/-- The warnings `CreateLixpys_unloc.py` prints without halting: the
multipart warning and empty-input warnings of sections 5-6
(`printerror`, no `SystemExit`), and the reconciliation findings. -/
structure LixWarnings where
  multipart : Bool
  stratEmpty : Bool
  wwptEmpty : Bool
  xslnEmpty : Bool
  orphanStrat : List WellId
  orphanWell : List WellId
  orphanWwptEtid : List Int
  orphanXslnEtid : List Int
  wellIdTypeMismatch : Bool

/-- Everything a completed run produces. -/
structure LixOutputs where
  warnings : LixWarnings
  loop : StratLoopResult
  polys : List StickPoly

/-- Sections 14-16: for each cross-section line, `arcpy.analysis.Select`
keeps the well points whose cross-section id matches that line's id (one
`wwpt_{et_id}` file per distinct id — a duplicate id reuses the same file
name), and `arcpy.management.Merge` concatenates the per-line files into
`wwpt_unloc_merge`, the file the geometry loop actually queries.  Well
points whose id matches no cross-section line are dropped here. -/
def wwptMerge (wwpt : List WellPt) (xslnEtids : List Int) : List WellPt :=
  (firstDedup xslnEtids).flatMap
    (fun e => wwpt.filter (fun w => decide (w.etid = e)))

/-- The control flow of `CreateLixpys_unloc.py`: multipart and emptiness
checks warn and continue; non-positive `buffer_dist` or
`vertical_exaggeration` raise `SystemExit` before any line is processed;
the section-7 type check crashes (`IndexError`) on an empty stratigraphy or
well-point id column; section 16's `Merge` crashes when there are no
cross-section lines and hence no per-line well files; otherwise the
geometry loop runs over the merged (id-filtered) well point file and the
polygon stage produces the outputs. -/
def runLix (multipart : Bool) (cfg : LixConfig) (strat : List StratRec)
    (wwpt : List WellPt) (xslnEtids : List Int) : Except LixHalt LixOutputs :=
  if cfg.bufferDist ≤ 0 then .error .bufferNonpositive
  else if cfg.verticalExaggeration ≤ 0 then .error .veNonpositive
  else
    match reconcile (strat.map (fun r => r.wellid)) (wwpt.map (fun w => w.wellid))
        (wwpt.map (fun w => w.etid)) xslnEtids with
    | .error e => .error e
    | .ok rep =>
      if xslnEtids.isEmpty then .error .mergeEmptyError
      else
        let res := processStrat cfg.bufferDist cfg.verticalExaggeration
          (wwptMerge wwpt xslnEtids) strat
        .ok ⟨⟨multipart, strat.isEmpty, wwpt.isEmpty, xslnEtids.isEmpty,
              rep.orphanStrat, rep.orphanWell, rep.orphanWwptEtid,
              rep.orphanXslnEtid, rep.typeMismatch⟩,
             res,
             makeStickPolygons cfg.verticalExaggeration cfg.wellStickWidth
               res.segs2d⟩

/-! ## RasterProfiles.py QC (sections 2A-3) -/

/-- The `raise SystemExit` sites of `RasterProfiles.py`. -/
inductive RasterHalt
  | reservedField
  | veNonpositive
  | badRasterName
deriving DecidableEq

/-- The warnings `RasterProfiles.py` prints without halting. -/
structure RasterWarnings where
  xslnEmpty : Bool
  multipart : Bool

/-- Python's `str.isalnum`: nonempty and all characters alphanumeric. -/
def isAlnumStr (s : List Char) : Bool :=
  !s.isEmpty && s.all (fun c => c.isAlphanum)

/-- Does `pat` occur as a contiguous run at the front of `s`? -/
def startsWithSeq : List Char → List Char → Bool
  | [], _ => true
  | _ :: _, [] => false
  | a :: pa, b :: sb => decide (a = b) && startsWithSeq pa sb

/-- Python's `pat in s` substring test on character lists. -/
def containsSeq (pat : List Char) : List Char → Bool
  | [] => startsWithSeq pat []
  | c :: tl => startsWithSeq pat (c :: tl) || containsSeq pat tl

/-- The reserved field names of `RasterProfiles.py`. -/
def reservedFields : List (List Char) :=
  [['O', 'B', 'J', 'E', 'C', 'T', 'I', 'D'],
   ['S', 'H', 'A', 'P', 'E'],
   ['S', 'h', 'a', 'p', 'e'],
   ['S', 'h', 'a', 'p', 'e', '_', 'L', 'e', 'n', 'g', 't', 'h']]

/-- Sections 2A-3 of `RasterProfiles.py`: the empty-input and multipart
checks print warnings and continue; a reserved substring in the id field, a
non-positive vertical exaggeration, or a non-alphanumeric raster name raise
`SystemExit`. -/
def rasterQC (xslnCount : Nat) (multipart : Bool) (etidField : List Char)
    (ve : Int) (rasters : List (List Char)) :
    Except RasterHalt RasterWarnings :=
  if reservedFields.any (fun n => containsSeq n etidField) then
    .error .reservedField
  else if ve ≤ 0 then .error .veNonpositive
  else if rasters.any (fun r => !(isAlnumStr r)) then .error .badRasterName
  else .ok ⟨decide (xslnCount = 0), multipart⟩

/-! ## Theorems about the table pipeline -/

theorem mem_firstDedup {α : Type} [DecidableEq α] (l : List α) (b : α) :
    b ∈ firstDedup l ↔ b ∈ l := by
  induction l with
  | nil => simp [firstDedup]
  | cons a rest ih =>
    simp only [firstDedup, List.mem_cons, List.mem_filter,
      decide_eq_true_eq, ih]
    by_cases hba : b = a
    · simp [hba]
    · simp [hba]

theorem wellIdLe_trans (a b c : WellId) (hab : wellIdLe a b = true)
    (hbc : wellIdLe b c = true) : wellIdLe a c = true := by
  cases a <;> cases b <;> cases c <;>
    simp only [wellIdLe, decide_eq_true_eq] at hab hbc ⊢ <;>
    first
      | rfl
      | exact le_trans hab hbc
      | exact absurd hab Bool.false_ne_true
      | exact absurd hbc Bool.false_ne_true

theorem wellIdLe_total (a b : WellId) :
    (wellIdLe a b || wellIdLe b a) = true := by
  cases a <;> cases b <;>
    simp only [wellIdLe, Bool.or_eq_true, decide_eq_true_eq] <;>
    first
      | simp
      | exact le_total _ _

/-- C2.  In the well-stick 2D geometry the drawing point of each stick
endpoint is `((measure / 0.3048) / verticalExaggeration, elevation)`, and
the raster-profile 2D conversion maps every vertex to
`((measureOnLine / 0.3048) / verticalExaggeration, vertex.Z)`: the measure
is converted from meters to feet and divided by the exaggeration, while the
elevation passes through unscaled. -/
theorem C2_drawing_transform :
    (∀ (bd ve : Int) (r : StratRec) (zt zb : ℚ) (w : WellPt),
      (buildSegs bd ve r zt zb w).2.pA
          = (xDrawing w.onLineDist (ve : ℚ), zt) ∧
      (buildSegs bd ve r zt zb w).2.pB
          = (xDrawing w.onLineDist (ve : ℚ), zb)) ∧
    (∀ (sq : ℚ → ℚ) (xsln : List Pt) (ve : Int)
        (profVerts : List (ℚ × ℚ × ℚ)),
      profilePoints2D sq xsln ve profVerts
        = profVerts.map (fun v =>
            (xDrawing (measureOnLine sq xsln (v.1, v.2.1)) (ve : ℚ), v.2.2))) :=
  ⟨fun _ _ _ _ _ _ => ⟨rfl, rfl⟩, fun _ _ _ _ => rfl⟩

/-- C6.  A non-positive buffer distance or vertical exaggeration makes
`CreateLixpys_unloc.py` raise `SystemExit` before the geometry loop runs and
before any output is produced (the run result is an error carrying no
outputs), and a non-positive vertical exaggeration likewise halts
`RasterProfiles.py` during its QC section. -/
theorem C6_fatal_config :
    (∀ (multipart : Bool) (cfg : LixConfig) (strat : List StratRec)
        (wwpt : List WellPt) (xslnEtids : List Int),
      cfg.bufferDist ≤ 0 ∨ cfg.verticalExaggeration ≤ 0 →
      ∃ e, runLix multipart cfg strat wwpt xslnEtids = Except.error e) ∧
    (∀ (xslnCount : ℕ) (multipart : Bool) (etidField : List Char) (ve : Int)
        (rasters : List (List Char)),
      ve ≤ 0 → ∃ e, rasterQC xslnCount multipart etidField ve rasters
        = Except.error e) := by
  constructor
  · intro mp cfg strat wwpt xs h
    unfold runLix
    by_cases hb : cfg.bufferDist ≤ 0
    · exact ⟨.bufferNonpositive, by rw [if_pos hb]⟩
    · have hv : cfg.verticalExaggeration ≤ 0 := h.resolve_left hb
      exact ⟨.veNonpositive, by rw [if_neg hb, if_pos hv]⟩
  · intro xc mp etid ve rasters h
    unfold rasterQC
    by_cases hr : (reservedFields.any (fun n => containsSeq n etid)) = true
    · exact ⟨.reservedField, by rw [if_pos hr]⟩
    · exact ⟨.veNonpositive, by rw [if_neg hr, if_pos h]⟩

/-- Concrete check of `C6_fatal_config`: `buffer_dist = 0` halts the lixpy
tool and `vertical_exaggeration = 0` halts the raster profile tool. -/
theorem C6_fatal_config_witness :
    (∃ e, runLix false ⟨0, 50, 1⟩ [] [] [] = Except.error e) ∧
    (∃ e, rasterQC 1 false [] 0 [] = Except.error e) :=
  ⟨C6_fatal_config.1 false ⟨0, 50, 1⟩ [] [] [] (Or.inl (by norm_num)),
   C6_fatal_config.2 1 false [] 0 [] (by norm_num)⟩

/-- Concrete stratigraphy record used by witnesses. -/
def wStrat : StratRec := ⟨1, .num 1, some 100, some 90⟩

/-- Concrete well point used by witnesses. -/
def wWell : WellPt := ⟨.num 1, 7, 10, 20, 1000, 50⟩

/-- Second concrete well point with the same well id, later in cursor
order. -/
def wWellB : WellPt := ⟨.num 1, 7, 11, 21, 2000, 60⟩

/-- C5 counterexample: a run whose cross-section input is multipart, with
valid configuration and nonempty inputs, completes and produces outputs —
the multipart check prints a warning and continues instead of halting. -/
theorem C5_counterexample :
    (runLix true ⟨500, 50, 1⟩ [wStrat] [wWell] [7]).isOk = true := rfl

/-- C5 (amended).  A detected multipart cross-section geometry is reported
as a warning (`Continuing may result in errors`) and the run proceeds to
produce outputs; it is not a fatal validation error.  (Stated for otherwise
valid, nonempty inputs so that no other failure path intervenes.) -/
theorem C5_multipart_warns :
    ∀ (cfg : LixConfig) (r : StratRec) (srest : List StratRec) (w : WellPt)
      (wrest : List WellPt) (e : Int) (erest : List Int),
      0 < cfg.bufferDist → 0 < cfg.verticalExaggeration →
      ∃ out, runLix true cfg (r :: srest) (w :: wrest) (e :: erest)
          = .ok out ∧
        out.warnings.multipart = true := by
  intro cfg r srest w wrest e erest hb hv
  unfold runLix
  rw [if_neg (not_le.mpr hb), if_neg (not_le.mpr hv)]
  exact ⟨_, rfl, rfl⟩

/-- Concrete check of `C5_multipart_warns`. -/
theorem C5_multipart_warns_witness :
    ∃ out, runLix true ⟨500, 50, 1⟩ [wStrat] [wWell] [7] = .ok out ∧
      out.warnings.multipart = true :=
  C5_multipart_warns ⟨500, 50, 1⟩ wStrat [] wWell [] 7 []
    (by norm_num) (by norm_num)

/-- C7 counterexample: the emptiness checks themselves never halt as a
designed fatal data error.  `RasterProfiles.py` passes its whole QC section
with an empty cross-section collection (the check only sets the warning);
and in `CreateLixpys_unloc.py` a run with no cross-section lines dies at
section 16's `Merge` over zero per-line well files — an uncaught
geoprocessing error long after the `GetCount` warning — while an empty
stratigraphy table dies at the section-7 type check's `IndexError`, not at
its `GetCount` check. -/
theorem C7_counterexample :
    rasterQC 0 false [] 50 [] = Except.ok ⟨true, false⟩ ∧
    runLix false ⟨500, 50, 1⟩ [wStrat] [wWell] []
      = Except.error LixHalt.mergeEmptyError ∧
    runLix false ⟨500, 50, 1⟩ [] [wWell] [7]
      = Except.error LixHalt.typeCheckError := ⟨rfl, rfl, rfl⟩

/-- C7 (amended).  An empty required input collection is only warned about
(`Tool will not run correctly`): the `GetCount` checks never halt.
`RasterProfiles.py` continues past its QC with zero cross-section lines;
`CreateLixpys_unloc.py` then dies mid-pipeline from uncaught errors — the
section-7 `IndexError` when the stratigraphy or well-point collection is
empty, and the section-16 `Merge` failure over zero per-line well files
when the cross-section collection is empty — not from a designed
pre-processing fatal data error. -/
theorem C7_empty_warns :
    (∀ (mp : Bool) (etid : List Char) (ve : Int) (rasters : List (List Char)),
      (reservedFields.any (fun n => containsSeq n etid)) = false → 0 < ve →
      (rasters.any (fun r => !(isAlnumStr r))) = false →
      rasterQC 0 mp etid ve rasters = .ok ⟨true, mp⟩) ∧
    (∀ (mp : Bool) (cfg : LixConfig) (wwpt : List WellPt) (xs : List Int),
      0 < cfg.bufferDist → 0 < cfg.verticalExaggeration →
      runLix mp cfg [] wwpt xs = .error .typeCheckError) ∧
    (∀ (mp : Bool) (cfg : LixConfig) (strat : List StratRec) (xs : List Int),
      0 < cfg.bufferDist → 0 < cfg.verticalExaggeration →
      runLix mp cfg strat [] xs = .error .typeCheckError) ∧
    (∀ (mp : Bool) (cfg : LixConfig) (r : StratRec) (srest : List StratRec)
        (w : WellPt) (wrest : List WellPt),
      0 < cfg.bufferDist → 0 < cfg.verticalExaggeration →
      runLix mp cfg (r :: srest) (w :: wrest) []
        = .error .mergeEmptyError) := by
  refine ⟨?_, ?_, ?_, ?_⟩
  · intro mp etid ve rasters hres hve hras
    unfold rasterQC
    rw [if_neg (by simp [hres]), if_neg (not_le.mpr hve),
      if_neg (by simp [hras])]
    rfl
  · intro mp cfg wwpt xs hb hv
    unfold runLix
    rw [if_neg (not_le.mpr hb), if_neg (not_le.mpr hv)]
    rfl
  · intro mp cfg strat xs hb hv
    unfold runLix
    rw [if_neg (not_le.mpr hb), if_neg (not_le.mpr hv)]
    cases strat <;> rfl
  · intro mp cfg r srest w wrest hb hv
    unfold runLix
    rw [if_neg (not_le.mpr hb), if_neg (not_le.mpr hv)]
    rfl

/-- Concrete check of `C7_empty_warns` on all four scenarios. -/
theorem C7_empty_warns_witness :
    rasterQC 0 true [] 50 [] = .ok ⟨true, true⟩ ∧
    runLix false ⟨500, 50, 1⟩ [] [wWell] [7] = .error .typeCheckError ∧
    runLix false ⟨500, 50, 1⟩ [wStrat] [] [7] = .error .typeCheckError ∧
    runLix false ⟨500, 50, 1⟩ [wStrat] [wWell] []
      = .error .mergeEmptyError :=
  ⟨C7_empty_warns.1 true [] 50 [] rfl (by norm_num) rfl,
   C7_empty_warns.2.1 false ⟨500, 50, 1⟩ [wWell] [7] (by norm_num)
     (by norm_num),
   C7_empty_warns.2.2.1 false ⟨500, 50, 1⟩ [wStrat] [7] (by norm_num)
     (by norm_num),
   C7_empty_warns.2.2.2 false ⟨500, 50, 1⟩ wStrat [] wWell [] (by norm_num)
     (by norm_num)⟩

/-- C9 counterexample: with an empty stratigraphy table (valid configuration
otherwise), the section-7 type-consistency check indexes into an empty list
and the run dies with an uncaught `IndexError` — the reconciliation section
can halt the pipeline. -/
theorem C9_counterexample :
    runLix false ⟨500, 50, 1⟩ [] [wWell] [7]
      = Except.error LixHalt.typeCheckError := rfl

/-- C9 (amended).  On nonempty id collections the reconciliation step only
reports: it returns the four orphan lists as pure set differences (an id is
listed exactly when it occurs in one collection and not the other), plus the
well-id type-mismatch flag, and never halts; with an empty stratigraphy or
well-point id collection the type check raises an `IndexError` instead. -/
theorem C9_reconciler_reports :
    ∀ (s0 : WellId) (srest : List WellId) (w0 : WellId) (wrest : List WellId)
      (wwptEtidCol xslnEtidCol : List Int),
      ∃ rep, reconcile (s0 :: srest) (w0 :: wrest) wwptEtidCol xslnEtidCol
          = .ok rep ∧
        (∀ i, i ∈ rep.orphanStrat ↔ i ∈ s0 :: srest ∧ i ∉ w0 :: wrest) ∧
        (∀ i, i ∈ rep.orphanWell ↔ i ∈ w0 :: wrest ∧ i ∉ s0 :: srest) ∧
        (∀ e, e ∈ rep.orphanWwptEtid ↔ e ∈ wwptEtidCol ∧ e ∉ xslnEtidCol) ∧
        (∀ e, e ∈ rep.orphanXslnEtid ↔ e ∈ xslnEtidCol ∧ e ∉ wwptEtidCol) ∧
        rep.typeMismatch = (s0.isNumeric != w0.isNumeric) := by
  intro s0 srest w0 wrest we xe
  refine ⟨_, rfl, ?_, ?_, ?_, ?_, rfl⟩ <;>
    intro i <;>
    simp [List.mem_filter, mem_firstDedup]

/-- Concrete check of `C9_reconciler_reports` on the spec's example:
stratigraphy ids `{1,2,3}` against well ids `{2,3,4}` report orphan-strat
`{1}` and orphan-well `{4}`, both numeric so no type mismatch. -/
theorem C9_reconciler_reports_witness :
    (∃ rep, reconcile [WellId.num 1, .num 2, .num 3]
        [WellId.num 2, .num 3, .num 4] [] [] = .ok rep ∧
      (∀ i, i ∈ rep.orphanStrat ↔
        i ∈ [WellId.num 1, .num 2, .num 3] ∧
        i ∉ [WellId.num 2, .num 3, .num 4]) ∧
      (∀ i, i ∈ rep.orphanWell ↔
        i ∈ [WellId.num 2, .num 3, .num 4] ∧
        i ∉ [WellId.num 1, .num 2, .num 3]) ∧
      (∀ e, e ∈ rep.orphanWwptEtid ↔ e ∈ ([] : List Int) ∧
        e ∉ ([] : List Int)) ∧
      (∀ e, e ∈ rep.orphanXslnEtid ↔ e ∈ ([] : List Int) ∧
        e ∉ ([] : List Int)) ∧
      rep.typeMismatch = ((WellId.num 1).isNumeric != (WellId.num 2).isNumeric)) ∧
    reconcile [WellId.num 1, .num 2, .num 3] [WellId.num 2, .num 3, .num 4] [] []
      = .ok ⟨[.num 1], [.num 4], [], [], false⟩ :=
  ⟨C9_reconciler_reports (.num 1) [.num 2, .num 3] (.num 2) [.num 3, .num 4]
    [] [], rfl⟩

/-- C10.  When a strat record's well id matches several well points in the
merged file, the section-17 cursor loop overwrites its working variables on
every matching row, so exactly one 3D and one 2D segment are emitted, built
from the last matching well point in cursor order. -/
theorem C10_last_match_wins :
    ∀ (bd ve : Int) (wwpt : List WellPt) (r : StratRec) (zt zb : ℚ)
      (m : WellPt) (rest : List StratRec),
      r.elevTop = some zt → r.elevBot = some zb →
      2 ≤ (matchesFor wwpt r.wellid).length →
      (matchesFor wwpt r.wellid).getLast? = some m →
      stratRecordOutcome bd ve wwpt r
          = .emit (buildSegs bd ve r zt zb m).1 (buildSegs bd ve r zt zb m).2 ∧
      (processStrat bd ve wwpt (r :: rest)).segs3d
          = (buildSegs bd ve r zt zb m).1
              :: (processStrat bd ve wwpt rest).segs3d ∧
      (processStrat bd ve wwpt (r :: rest)).segs2d
          = (buildSegs bd ve r zt zb m).2
              :: (processStrat bd ve wwpt rest).segs2d := by
  intro bd ve wwpt r zt zb m rest hTop hBot _hlen hLast
  have hout : stratRecordOutcome bd ve wwpt r
      = .emit (buildSegs bd ve r zt zb m).1 (buildSegs bd ve r zt zb m).2 := by
    unfold stratRecordOutcome
    simp only [hTop, hBot, hLast]
  refine ⟨hout, ?_, ?_⟩ <;> simp [processStrat, hout]

/-- Concrete check of `C10_last_match_wins`: two well points share well id
`1`; the emitted segments come from the second (`wWellB`). -/
theorem C10_last_match_wins_witness :
    stratRecordOutcome 500 50 [wWell, wWellB] wStrat
        = .emit (buildSegs 500 50 wStrat 100 90 wWellB).1
                (buildSegs 500 50 wStrat 100 90 wWellB).2 ∧
    (processStrat 500 50 [wWell, wWellB] [wStrat]).segs3d
        = (buildSegs 500 50 wStrat 100 90 wWellB).1
            :: (processStrat 500 50 [wWell, wWellB] []).segs3d ∧
    (processStrat 500 50 [wWell, wWellB] [wStrat]).segs2d
        = (buildSegs 500 50 wStrat 100 90 wWellB).2
            :: (processStrat 500 50 [wWell, wWellB] []).segs2d :=
  C10_last_match_wins 500 50 [wWell, wWellB] wStrat 100 90 wWellB []
    rfl rfl (by rfl) (by rfl)

/-- C4 (amended).  Per-record accounting of the section-17 loop: every strat
record lands in exactly one bucket (emitted segment pair, `nomatch_list`
entry, or per-record null-elevation skip message), so nothing is dropped
silently; the null-elevation skips are exactly the records with a null
`elev_top` or `elev_bot` (reported per record, not aggregated), while the
end-of-run aggregate `nomatch_list` contains exactly the non-null records
with no matching well point. -/
theorem C4_skip_accounting :
    ∀ (bd ve : Int) (wwpt : List WellPt) (strat : List StratRec),
      (processStrat bd ve wwpt strat).segs2d.length
          + (processStrat bd ve wwpt strat).nomatchList.length
          + (processStrat bd ve wwpt strat).nullSkipOids.length
        = strat.length ∧
      (processStrat bd ve wwpt strat).segs3d.length
        = (processStrat bd ve wwpt strat).segs2d.length ∧
      (processStrat bd ve wwpt strat).nullSkipOids
        = (strat.filter (fun r => r.elevTop.isNone || r.elevBot.isNone)).map
            (fun r => r.oid) ∧
      (processStrat bd ve wwpt strat).nomatchList
        = (strat.filter (fun r => !(r.elevTop.isNone || r.elevBot.isNone)
            && (matchesFor wwpt r.wellid).isEmpty)).map (fun r => r.wellid) := by
  intro bd ve wwpt strat
  induction strat with
  | nil => simp [processStrat]
  | cons r rest ih =>
    obtain ⟨ih1, ih2, ih3, ih4⟩ := ih
    rcases hT : r.elevTop with _ | zt
    · have hout : stratRecordOutcome bd ve wwpt r = .nullSkip r.oid := by
        unfold stratRecordOutcome
        simp only [hT]
      refine ⟨?_, ?_, ?_, ?_⟩
      · simp only [processStrat, hout, List.length_cons]
        omega
      · simpa [processStrat, hout] using ih2
      · simp [processStrat, hout, hT, ih3]
      · simp [processStrat, hout, hT, ih4]
    · rcases hB : r.elevBot with _ | zb
      · have hout : stratRecordOutcome bd ve wwpt r = .nullSkip r.oid := by
          unfold stratRecordOutcome
          simp only [hT, hB]
        refine ⟨?_, ?_, ?_, ?_⟩
        · simp only [processStrat, hout, List.length_cons]
          omega
        · simpa [processStrat, hout] using ih2
        · simp [processStrat, hout, hT, hB, ih3]
        · simp [processStrat, hout, hT, hB, ih4]
      · rcases hM : (matchesFor wwpt r.wellid).getLast? with _ | m
        · have hnil : matchesFor wwpt r.wellid = [] :=
            List.getLast?_eq_none_iff.mp hM
          have hout : stratRecordOutcome bd ve wwpt r = .noMatch r.wellid := by
            unfold stratRecordOutcome
            simp only [hT, hB, hM]
          refine ⟨?_, ?_, ?_, ?_⟩
          · simp only [processStrat, hout, List.length_cons]
            omega
          · simpa [processStrat, hout] using ih2
          · simp [processStrat, hout, hT, hB, ih3]
          · simp [processStrat, hout, hT, hB, hnil, ih4]
        · have hne : matchesFor wwpt r.wellid ≠ [] := by
            intro h
            rw [h] at hM
            simp at hM
          have hout : stratRecordOutcome bd ve wwpt r
              = .emit (buildSegs bd ve r zt zb m).1
                      (buildSegs bd ve r zt zb m).2 := by
            unfold stratRecordOutcome
            simp only [hT, hB, hM]
          have hempty : (matchesFor wwpt r.wellid).isEmpty = false := by
            rcases hcase : matchesFor wwpt r.wellid with _ | ⟨x, xs⟩
            · exact absurd hcase hne
            · rfl
          refine ⟨?_, ?_, ?_, ?_⟩
          · simp only [processStrat, hout, List.length_cons]
            omega
          · simpa [processStrat, hout] using ih2
          · simp [processStrat, hout, hT, hB, ih3]
          · simp [processStrat, hout, hT, hB, hempty, ih4]

/-- Ten stratigraphy records for the same well, the fifth with a null
`elev_bot`. -/
def c4Strat : List StratRec :=
  [⟨1, .num 1, some 100, some 95⟩, ⟨2, .num 1, some 95, some 90⟩,
   ⟨3, .num 1, some 90, some 85⟩, ⟨4, .num 1, some 85, some 80⟩,
   ⟨5, .num 1, some 80, none⟩, ⟨6, .num 1, some 75, some 70⟩,
   ⟨7, .num 1, some 70, some 65⟩, ⟨8, .num 1, some 65, some 60⟩,
   ⟨9, .num 1, some 60, some 55⟩, ⟨10, .num 1, some 55, some 50⟩]

/-- C4 counterexample: ten stratigraphy records, one with `elev_bot = null`
and all with a matching well point, yield 9 2D stick segments — but the
per-run aggregated skip count surfaced at the end (`nomatch_list`) is `0`,
not `1`: the null-elevation skip is only reported by an immediate
per-record message (here for strat oid `5`), not aggregated. -/
theorem C4_counterexample :
    (processStrat 500 50 [wWell] c4Strat).segs2d.length = 9 ∧
    (processStrat 500 50 [wWell] c4Strat).nomatchList.length = 0 ∧
    (processStrat 500 50 [wWell] c4Strat).nullSkipOids = [5] := by
  refine ⟨?_, ?_, ?_⟩ <;> rfl

/-- C8.  Every emitted stick polygon buffers its 2D segment with half-width
`130 / verticalExaggeration + wellStickWidth` and flat caps, and the final
polygon collection is a permutation of the buffered segments sorted
(ascending) by well id, fixing the draw order across runs. -/
theorem C8_stick_polygons :
    ∀ (ve : Int) (wsw : ℚ) (segs : List Seg2D),
      (∀ p, p ∈ makeStickPolygons ve wsw segs →
        p.halfWidth = 130 / (ve : ℚ) + wsw ∧ p.flatCaps = true) ∧
      (makeStickPolygons ve wsw segs).Pairwise
        (fun a b => wellIdLe a.seg.wellid b.seg.wellid = true) ∧
      (makeStickPolygons ve wsw segs).Perm
        (segs.map (fun s => bufferFlat s (130 / (ve : ℚ) + wsw))) := by
  intro ve wsw segs
  refine ⟨?_, ?_, ?_⟩
  · intro p hp
    unfold makeStickPolygons at hp
    rw [List.mem_mergeSort] at hp
    obtain ⟨s, _, rfl⟩ := List.mem_map.mp hp
    exact ⟨rfl, rfl⟩
  · exact List.sorted_mergeSort
      (fun a b c => wellIdLe_trans a.seg.wellid b.seg.wellid c.seg.wellid)
      (fun a b => wellIdLe_total a.seg.wellid b.seg.wellid) _
  · exact List.mergeSort_perm _ _

/-- 2D stick segment with well id 2, first in input order. -/
def wSeg2 : Seg2D := ⟨.num 2, 7, (1, 100), (1, 90), 10, 20, 100, 90, 1, 50, 20⟩

/-- 2D stick segment with well id 1, second in input order. -/
def wSeg1 : Seg2D := ⟨.num 1, 7, (2, 80), (2, 70), 11, 21, 80, 70, 2, 60, 24⟩

/-- Concrete check of `C8_stick_polygons` on two out-of-order segments. -/
theorem C8_stick_polygons_witness :
    ((bufferFlat wSeg1 (130 / ((50 : Int) : ℚ) + 1 / 2)).halfWidth
        = 130 / ((50 : Int) : ℚ) + 1 / 2 ∧
      (bufferFlat wSeg1 (130 / ((50 : Int) : ℚ) + 1 / 2)).flatCaps = true) ∧
    (makeStickPolygons 50 (1 / 2) [wSeg2, wSeg1]).Pairwise
      (fun a b => wellIdLe a.seg.wellid b.seg.wellid = true) ∧
    (makeStickPolygons 50 (1 / 2) [wSeg2, wSeg1]).Perm
      ([wSeg2, wSeg1].map (fun s => bufferFlat s (130 / ((50 : Int) : ℚ) + 1 / 2))) := by
  have h := C8_stick_polygons 50 (1 / 2) [wSeg2, wSeg1]
  have hmem : bufferFlat wSeg1 (130 / ((50 : Int) : ℚ) + 1 / 2)
      ∈ makeStickPolygons 50 (1 / 2) [wSeg2, wSeg1] := by
    unfold makeStickPolygons
    rw [List.mem_mergeSort]
    exact List.mem_map_of_mem _ (by simp)
  exact ⟨h.1 _ hmem, h.2.1, h.2.2⟩

end DNRXS
